import Mathlib

/-!
Verification of the vedoTk selection engine against its specification.

The definitions below are a shallow embedding of the selection-state code of
the repository: the SurfaceSelection collection of utils/mesh.py, the
MeshSelection plotter state machine of apps/mesh_selection.py, the SurfaceMesh
variant of mesh_selection.py, the save auto-naming of MeshSelection.save, and
the marker-matching logic of apps/registration.py.  Arrays of indices are
modelled as lists of naturals, 3D points as integer triples, the numpy
primitives (unique with return_index, setdiff1d, in1d) by the list operations
they compute, and the vedo nearest-point query by an exact argmin over the
vertex list (first index at minimal squared distance).  Rendering calls are
omitted: they do not touch the selection, history or cursor fields.
-/

namespace VedoTk

/-! Basic list operations mirroring the numpy primitives used by the code. -/

/-- Helper for `dedupFirst`, carrying the set of values already emitted. -/
def dedupFirstAux (seen : List Nat) : List Nat → List Nat
  | [] => []
  | x :: xs => if x ∈ seen then dedupFirstAux seen xs else x :: dedupFirstAux (x :: seen) xs

/-- Semantics of the numpy idiom idx[sorted(unique(idx, return_index=True)[1])]
used by add and update_selection: keep the first occurrence of every value,
preserving first-seen order. -/
def dedupFirst (xs : List Nat) : List Nat := dedupFirstAux [] xs

/-- Semantics of numpy setdiff1d(a, b): the sorted unique values of a that are
not contained in b. -/
def setdiff1d (a b : List Nat) : List Nat :=
  (List.insertionSort (· ≤ ·) (a.filter (fun x => decide (x ∉ b)))).dedup

/-! Exact geometry for the nearest-point queries. -/

/-- A 3D point with integer coordinates, giving exact nearest-point queries. -/
structure Pt where
  x : Int
  y : Int
  z : Int
deriving DecidableEq, Repr

def Pt.zero : Pt := ⟨0, 0, 0⟩

def sqdist (a b : Pt) : Int :=
  (a.x - b.x) * (a.x - b.x) + (a.y - b.y) * (a.y - b.y) + (a.z - b.z) * (a.z - b.z)

def dotp (a b : Pt) : Int := a.x * b.x + a.y * b.y + a.z * b.z

/-- Helper scanning the remaining points, keeping the first index at minimal
squared distance. -/
def closestFrom (p : Pt) : List Pt → Nat → Nat × Int → Nat × Int
  | [], _, best => best
  | q :: rest, i, best =>
      if sqdist q p < best.2 then closestFrom p rest (i + 1) (i, sqdist q p)
      else closestFrom p rest (i + 1) best

/-- Semantics of vedo Points.closest_point(p, return_point_id=True): the id of
the first point at minimal distance from p. -/
def closestPointId (pts : List Pt) (p : Pt) : Nat :=
  match pts with
  | [] => 0
  | q :: rest => (closestFrom p rest 1 (0, sqdist q p)).1

/-- Semantics of vedo Points.closest_point(p, radius=r, return_point_id=True)
as called by get_closest_points: pythons truthiness test on radius is false at
r = 0, so r = 0 falls back to the single-nearest query and the caller wraps
the resulting int into a one-element array; a nonzero r returns all ids within
distance r of p. -/
def vedoClosestPoint (pts : List Pt) (p : Pt) (radius : Int) : List Nat :=
  if radius ≠ 0 then
    (List.range pts.length).filter (fun i => decide (sqdist (pts.getD i Pt.zero) p ≤ radius * radius))
  else
    [closestPointId pts p]

/-! The SurfaceSelection collection of src/vedoTk/utils/mesh.py. -/

/-- The surface-to-volume vertex map built in the tetra branch of
SurfaceSelection init: for each surface vertex, the id of the nearest
volumetric vertex. -/
def idxTetra (volPts surfPts : List Pt) : List Nat :=
  surfPts.map (closestPointId volPts)

/-- State of vedoTk.utils.mesh.SurfaceSelection: the surface vertices and
their normals, the optional tetra conversion map, and the internal selection
field idx holding surface-vertex indices. -/
structure SurfaceSelection where
  vertices : List Pt
  normals : List Pt
  idx_tetra : Option (List Nat)
  idx : List Nat
deriving DecidableEq, Repr

/-- SurfaceSelection init for a plain surface mesh: no conversion map, the
initial selection indices are stored as given. -/
def SurfaceSelection.initSurface (vertices normals : List Pt)
    (selection_idx : Option (List Nat)) : SurfaceSelection :=
  ⟨vertices, normals, none, selection_idx.getD []⟩

/-- SurfaceSelection init for a tetra mesh: the conversion map idx_tetra is
built by nearest-point queries, and an initial selection is stored as
idx_tetra[selection_idx] (the code applies the forward map to the loaded
indices). -/
def SurfaceSelection.initTetra (volVertices surfVertices normals : List Pt)
    (selection_idx : Option (List Nat)) : SurfaceSelection :=
  let t := idxTetra volVertices surfVertices
  ⟨surfVertices, normals, some t,
    match selection_idx with
    | none => []
    | some sel => sel.map (fun v => t.getD v 0)⟩

/-- The selected_idx getter: for tetra meshes the internal indices are mapped
through idx_tetra, for surface meshes a copy of the internal list is
returned. -/
def SurfaceSelection.selected_idx (s : SurfaceSelection) : List Nat :=
  match s.idx_tetra with
  | some t => s.idx.map (fun i => t.getD i 0)
  | none => s.idx

/-- The selected_idx setter: stores the raw value into idx. -/
def SurfaceSelection.set_selected_idx (s : SurfaceSelection) (v : List Nat) : SurfaceSelection :=
  { s with idx := v }

/-- SurfaceSelection.add: concatenate then keep first occurrences in order. -/
def SurfaceSelection.add (s : SurfaceSelection) (ids : List Nat) : SurfaceSelection :=
  { s with idx := dedupFirst (s.idx ++ ids) }

/-- SurfaceSelection.remove: keep the entries of idx that are not in ids
(numpy idx[~in1d(idx, ids)]). -/
def SurfaceSelection.remove (s : SurfaceSelection) (ids : List Nat) : SurfaceSelection :=
  { s with idx := s.idx.filter (fun x => decide (x ∉ ids)) }

/-- SurfaceSelection.clear: empty the selection. -/
def SurfaceSelection.clear (s : SurfaceSelection) : SurfaceSelection :=
  { s with idx := [] }

/-- SurfaceSelection.all: select every surface vertex (arange(nvertices)). -/
def SurfaceSelection.all (s : SurfaceSelection) : SurfaceSelection :=
  { s with idx := List.range s.vertices.length }

/-- SurfaceSelection.invert: setdiff1d(arange(nvertices), idx). -/
def SurfaceSelection.invert (s : SurfaceSelection) : SurfaceSelection :=
  { s with idx := setdiff1d (List.range s.vertices.length) s.idx }

/-- SurfaceSelection.get_closest_points: query the ids within the radius (a
single nearest id for radius zero), then keep the ids whose vertex normal has
positive dot product with the normal at the vertex closest to the pick
position. -/
def SurfaceSelection.get_closest_points (s : SurfaceSelection) (pos : Pt) (radius : Int) :
    List Nat :=
  let ids := vedoClosestPoint s.vertices pos radius
  if ids = [] then []
  else
    let posNormal := s.normals.getD (closestPointId s.vertices pos) Pt.zero
    ids.filter (fun i => decide (0 < dotp posNormal (s.normals.getD i Pt.zero)))

/-! The SurfaceMesh variant of src/vedoTk/mesh_selection.py, whose remove
uses setdiff1d instead of the order-preserving mask. -/

/-- Selection state of the SurfaceMesh class: conversion map and internal
selection list. -/
structure SurfaceMesh where
  tet_idx : Option (List Nat)
  idx : List Nat
deriving DecidableEq, Repr

/-- SurfaceMesh.add: same concatenate-and-keep-first-occurrences idiom. -/
def SurfaceMesh.add (s : SurfaceMesh) (ids : List Nat) : SurfaceMesh :=
  { s with idx := dedupFirst (s.idx ++ ids) }

/-- SurfaceMesh.remove: setdiff1d(idx, ids), which returns a sorted array. -/
def SurfaceMesh.remove (s : SurfaceMesh) (ids : List Nat) : SurfaceMesh :=
  { s with idx := setdiff1d s.idx ids }

/-! The MeshSelection plotter state machine of src/vedoTk/apps/mesh_selection.py. -/

/-- Mutable state of the MeshSelection plotter: the SurfaceSelection, the
cursor preview ids, the history of selected_idx snapshots, the history cursor
and the draw-mode flag. -/
structure MeshSelection where
  mesh : SurfaceSelection
  cursor : List Nat
  history : List (List Nat)
  history_idx : Nat
  draw_mode : Bool
deriving DecidableEq, Repr

/-- The interactive events delivered to the MeshSelection callbacks.  Mouse
events carry the event.actor test result and the ids resolved by
get_closest_points at the picked position. -/
inductive Event where
  | mouseMove (hit : Bool) (picked : List Nat)
  | leftClick (hit : Bool) (picked : List Nat)
  | rightClick (hit : Bool) (picked : List Nat)
  | keyUndo
  | keyRedo
  | keyClear
  | keyToggleDraw
  | keySelectAll
  | keyInvert
deriving DecidableEq, Repr

/-- The private update method: when the history flag is set, append the
current selected_idx after truncating everything beyond the history cursor,
and move the cursor to the end; rendering updates are omitted. -/
def MeshSelection.update (m : MeshSelection) (hist : Bool) : MeshSelection :=
  if hist then
    let h := m.history.take (m.history_idx + 1) ++ [m.mesh.selected_idx]
    { m with history := h, history_idx := h.length - 1 }
  else m

/-- One step of the MeshSelection state machine, one branch per callback of
the source. -/
def MeshSelection.step (m : MeshSelection) : Event → MeshSelection
  | .mouseMove hit picked =>
      if hit then
        let m1 := { m with cursor := picked }
        let m2 :=
          if m1.draw_mode = true ∧ picked ≠ [] then { m1 with mesh := m1.mesh.add picked }
          else m1
        m2.update false
      else ({ m with cursor := ([] : List Nat) }).update false
  | .leftClick hit picked =>
      if hit then
        let m1 := { m with cursor := picked }
        if picked ≠ [] then ({ m1 with mesh := m1.mesh.add picked }).update (!m1.draw_mode)
        else m1
      else m
  | .rightClick hit picked =>
      if hit then
        let m1 := { m with cursor := picked }
        if picked ≠ [] then ({ m1 with mesh := m1.mesh.remove picked }).update true
        else m1
      else m
  | .keyUndo =>
      if 0 < m.history_idx then
        let i := m.history_idx - 1
        ({ m with history_idx := i,
                  mesh := m.mesh.set_selected_idx (m.history.getD i []) }).update false
      else m
  | .keyRedo =>
      if m.history_idx < m.history.length - 1 then
        let i := m.history_idx + 1
        ({ m with history_idx := i,
                  mesh := m.mesh.set_selected_idx (m.history.getD i []) }).update false
      else m
  | .keyClear => ({ m with mesh := m.mesh.clear }).update true
  | .keyToggleDraw =>
      let m1 := { m with draw_mode := !m.draw_mode }
      if m1.draw_mode = false then
        let h := m1.history.take (m1.history_idx + 1) ++ [m1.mesh.selected_idx]
        { m1 with history := h, history_idx := h.length - 1 }
      else m1
  | .keySelectAll => ({ m with mesh := m.mesh.all }).update true
  | .keyInvert => ({ m with mesh := m.mesh.invert }).update true

/-- The freshly constructed plotter: empty cursor, empty history, cursor
position zero, draw mode off. -/
def MeshSelection.fresh (mesh : SurfaceSelection) : MeshSelection :=
  ⟨mesh, [], [], 0, false⟩

/-- The state right after launch: the launch method performs the first
history-recording update, seeding the history with the initial selection. -/
def MeshSelection.launch (mesh : SurfaceSelection) : MeshSelection :=
  (MeshSelection.fresh mesh).update true

/-- The engine states reachable during operation: a launched plotter followed
by any sequence of interactive events. -/
inductive Reachable : MeshSelection → Prop where
  | launch (mesh : SurfaceSelection) : Reachable (MeshSelection.launch mesh)
  | step (m : MeshSelection) (e : Event) : Reachable m → Reachable (m.step e)

/-- Iterate one event a fixed number of times. -/
def stepIter (e : Event) : Nat → MeshSelection → MeshSelection
  | 0, m => m
  | k + 1, m => stepIter e k (m.step e)

/-- The history-recording operations of the claim on undo and redo: click-add,
click-remove, clear, select-all and invert. -/
inductive HistOp where
  | clickAdd (ids : List Nat)
  | clickRemove (ids : List Nat)
  | clear
  | selectAll
  | invert
deriving DecidableEq, Repr

/-- The event delivered by each operation, with the cursor on the mesh. -/
def HistOp.toEvent : HistOp → Event
  | .clickAdd ids => .leftClick true ids
  | .clickRemove ids => .rightClick true ids
  | .clear => .keyClear
  | .selectAll => .keySelectAll
  | .invert => .keyInvert

/-- An operation records a history entry exactly when its guard passes: click
operations require a nonempty id set under the cursor. -/
def HistOp.pushes : HistOp → Bool
  | .clickAdd ids => !ids.isEmpty
  | .clickRemove ids => !ids.isEmpty
  | _ => true

/-- Run a list of operations from a state. -/
def runOps (m : MeshSelection) (ops : List HistOp) : MeshSelection :=
  ops.foldl (fun s op => s.step op.toEvent) m

/-- Invariant tying a surface-mesh engine state to the number of recorded
operations: click mode, k plus one snapshots, cursor on the last snapshot,
the first snapshot is the empty initial selection and the last one is the
current selection. -/
def opsInv (m : MeshSelection) (k : Nat) : Prop :=
  m.draw_mode = false ∧ m.mesh.idx_tetra = none ∧ m.history.length = k + 1 ∧
  m.history_idx = k ∧ m.history.getD 0 [] = [] ∧ m.history.getD k [] = m.mesh.idx

/-- The intermediate state of a brush stroke: enter draw mode, then deliver a
list of hover events over the surface. -/
def hoverStroke (m : MeshSelection) (pre : List (List Nat)) : MeshSelection :=
  pre.foldl (fun s ids => s.step (.mouseMove true ids)) (m.step .keyToggleDraw)

/-- A complete brush stroke: enter draw mode, hover, exit draw mode. -/
def stroke (m : MeshSelection) (hovers : List (List Nat)) : MeshSelection :=
  (hoverStroke m hovers).step .keyToggleDraw

/-! The save auto-naming logic of MeshSelection.save. -/

/-- Mirrors filename.split(dot)[0]: the characters before the first dot. -/
def baseName (s : List Char) : List Char := s.takeWhile (fun c => c != '.')

def npyExt : List Char := ['.', 'n', 'p', 'y']

/-- MeshSelection.save with default arguments (no selection file given at
construction nor at the call), so the base name is selection.npy.  The target
directory is modelled as the list of file names it contains.  Faithful to the
source: the existence test and the numbering count use the extension-less
name, while numpy save writes name plus the npy extension, replacing any file
of that exact name.  Returns the directory contents after the save and the
file name written. -/
def saveSelection (dir : List (List Char)) (overwrite : Bool) : List (List Char) × List Char :=
  let filename := baseName ("selection.npy".toList)
  let file :=
    if dir.contains filename then
      if overwrite then filename
      else filename ++ ('_' :: Nat.toDigits 10 (dir.countP (fun f => filename.isPrefixOf f)))
    else filename
  let dir1 := if dir.contains filename && overwrite then dir.erase filename else dir
  let written := file ++ npyExt
  ((dir1.erase written) ++ [written], written)

/-! The marker-matching logic of src/vedoTk/apps/registration.py. -/

/-- State of the _Registration viewer relevant to marker matching: the stored
marker index arrays and whether marker actors and matching lines are present
in the scene. -/
structure Registration where
  source_markers_idx : Option (List Nat)
  target_markers_idx : Option (List Nat)
  markers_shown : Bool
deriving DecidableEq, Repr

/-- _Registration.add_markers: previous markers and lines are removed first;
if the shapes of the two one-dimensional index arrays differ the method
returns False without adding anything, otherwise it stores the indices, adds
the markers and returns True. -/
def Registration.add_markers (r : Registration) (source_idx target_idx : List Nat) :
    Registration × Bool :=
  let r1 := { r with markers_shown := false }
  if source_idx.length ≠ target_idx.length then (r1, false)
  else ({ r1 with source_markers_idx := some source_idx,
                  target_markers_idx := some target_idx,
                  markers_shown := true }, true)

/-- Outcome of the change-tab callback when switching to the registration
tab: the register button is enabled iff add_markers succeeded, and a warning
dialog is shown otherwise. -/
structure TabState where
  plt : Registration
  register_enabled : Bool
  warning_shown : Bool
deriving DecidableEq, Repr

/-- The QtApp change-tab callback for the registration tab. -/
def changeTabToRegistration (r : Registration) (source_idx target_idx : List Nat) : TabState :=
  let res := r.add_markers source_idx target_idx
  ⟨res.1, res.2, !res.2⟩

/-! A small heap model for the aliasing behaviour of the selected_idx getter:
numpy arrays are mutable objects, so the getter result is modelled as a freshly
allocated cell distinct from the internal array. -/

/-- A heap of numpy integer arrays; addresses are indices into the list. -/
abbrev Heap := List (List Nat)

/-- An engine whose internal selection array lives at idx_addr in the heap. -/
structure EngineRef where
  idx_tetra : Option (List Nat)
  idx_addr : Nat
deriving DecidableEq, Repr

def heapRead (h : Heap) (a : Nat) : List Nat := h.getD a []

/-- In-place mutation of the array stored at an address. -/
def heapWrite (h : Heap) (a : Nat) (v : List Nat) : Heap := h.set a v

/-- The value returned by the selected_idx getter: the tetra conversion of the
internal array, or a copy of it. -/
def selectedContents (h : Heap) (e : EngineRef) : List Nat :=
  match e.idx_tetra with
  | some t => (heapRead h e.idx_addr).map (fun i => t.getD i 0)
  | none => heapRead h e.idx_addr

/-- The selected_idx getter with allocation: both the copy branch and the
advanced-indexing branch of the source produce a new array, appended to the
heap; the getter returns its address. -/
def selectedIdxAlloc (h : Heap) (e : EngineRef) : Heap × Nat :=
  (h ++ [selectedContents h e], h.length)

/-! Concrete meshes used by witnesses and counterexamples. -/

/-- Six collinear volumetric vertices at integer positions. -/
def volPts6 : List Pt :=
  [⟨0, 0, 0⟩, ⟨1, 0, 0⟩, ⟨2, 0, 0⟩, ⟨3, 0, 0⟩, ⟨4, 0, 0⟩, ⟨5, 0, 0⟩]

/-- The same six vertices as emitted by a surface extraction that renumbers
them, here rotated by one position. -/
def surfPts6 : List Pt :=
  [⟨1, 0, 0⟩, ⟨2, 0, 0⟩, ⟨3, 0, 0⟩, ⟨4, 0, 0⟩, ⟨5, 0, 0⟩, ⟨0, 0, 0⟩]

/-- Unit normals for the six surface vertices. -/
def normals6 : List Pt := List.replicate 6 ⟨0, 0, 1⟩

/-- A launched selection plotter over the tetra mesh above, with an empty
initial selection. -/
def tetraEngine : MeshSelection :=
  MeshSelection.launch (SurfaceSelection.initTetra volPts6 surfPts6 normals6 none)

/-- A ten-vertex plain surface mesh. -/
def surfPts10 : List Pt :=
  (List.range 10).map (fun i => ⟨Int.ofNat i, 0, 0⟩)

def normals10 : List Pt := List.replicate 10 ⟨0, 0, 1⟩

/-- A launched selection plotter over the plain surface mesh above. -/
def surfaceEngine : MeshSelection :=
  MeshSelection.launch (SurfaceSelection.initSurface surfPts10 normals10 none)

/-! Helper lemmas about the list primitives. -/

theorem getD_append_left {α : Type} (l l' : List α) (i : Nat) (d : α) (h : i < l.length) :
    (l ++ l').getD i d = l.getD i d := by
  induction l generalizing i with
  | nil => simp at h
  | cons a t ih =>
    cases i with
    | zero => rfl
    | succ j => simpa using ih j (by simpa using h)

theorem getD_concat_self {α : Type} (l : List α) (x d : α) :
    (l ++ [x]).getD l.length d = x := by
  induction l with
  | nil => rfl
  | cons a t ih => simp only [List.cons_append, List.length_cons, List.getD_cons_succ]; exact ih

theorem getD_set_ne {α : Type} (l : List α) (i j : Nat) (v d : α) (h : i ≠ j) :
    (l.set i v).getD j d = l.getD j d := by
  induction l generalizing i j with
  | nil => rfl
  | cons a t ih =>
    cases i with
    | zero =>
      cases j with
      | zero => exact absurd rfl h
      | succ k => rfl
    | succ i' =>
      cases j with
      | zero => rfl
      | succ k => simpa using ih i' k (by omega)

theorem mem_dedupFirstAux (l : List Nat) : ∀ (seen : List Nat) (x : Nat),
    x ∈ dedupFirstAux seen l ↔ x ∈ l ∧ x ∉ seen := by
  induction l with
  | nil => intro seen x; simp [dedupFirstAux]
  | cons a t ih =>
    intro seen x
    simp only [dedupFirstAux, List.mem_cons]
    by_cases ha : a ∈ seen
    · rw [if_pos ha, ih]
      constructor
      · tauto
      · rintro ⟨rfl | hx, hs⟩
        · exact absurd ha hs
        · exact ⟨hx, hs⟩
    · rw [if_neg ha]
      simp only [List.mem_cons, ih, List.mem_cons]
      by_cases hxa : x = a
      · subst hxa; tauto
      · tauto

theorem mem_dedupFirst (l : List Nat) (x : Nat) : x ∈ dedupFirst l ↔ x ∈ l := by
  simpa [dedupFirst] using mem_dedupFirstAux l [] x

theorem mem_setdiff1d (a b : List Nat) (x : Nat) :
    x ∈ setdiff1d a b ↔ x ∈ a ∧ x ∉ b := by
  unfold setdiff1d
  rw [List.mem_dedup, (List.perm_insertionSort _ _).mem_iff, List.mem_filter]
  simp

theorem sorted_setdiff1d (a b : List Nat) : (setdiff1d a b).Sorted (· ≤ ·) :=
  (List.sorted_insertionSort _ _).sublist (List.dedup_sublist _)

theorem nodup_setdiff1d (a b : List Nat) : (setdiff1d a b).Nodup :=
  List.nodup_dedup _

/-! Claim theorems. -/

/-- C1: the claimed tetra save/load round-trip fails on the code.  For the
tetra mesh whose surface extraction rotates the six vertices by one position,
the conversion map is [1, 2, 3, 4, 5, 0]; selecting the surface indices 2 and
5 and saving writes the volume indices [3, 0], but constructing a fresh
engine from that file applies the surface-to-volume map a second time instead
of inverting it, yielding the surface-space selection [4, 1] instead of
[2, 5]. -/
theorem c1_tetra_save_load_bug :
    idxTetra volPts6 surfPts6 = [1, 2, 3, 4, 5, 0] ∧
    ((SurfaceSelection.initTetra volPts6 surfPts6 normals6 none).add [2, 5]).idx = [2, 5] ∧
    ((SurfaceSelection.initTetra volPts6 surfPts6 normals6 none).add [2, 5]).selected_idx
      = [3, 0] ∧
    (SurfaceSelection.initTetra volPts6 surfPts6 normals6
        (some ((SurfaceSelection.initTetra volPts6 surfPts6 normals6 none).add
          [2, 5]).selected_idx)).idx = [4, 1] ∧
    (SurfaceSelection.initTetra volPts6 surfPts6 normals6
        (some ((SurfaceSelection.initTetra volPts6 surfPts6 normals6 none).add
          [2, 5]).selected_idx)).idx ≠ [2, 5] := by decide

/-- C3: the claimed auto-naming fails on the code.  Starting from an empty
directory, the first save writes selection.npy; the second save tests the
existence of the extension-less path, which never exists, so it writes
selection.npy again, replacing the first file instead of creating
selection_1.npy. -/
theorem c3_save_autonaming_bug :
    (saveSelection [] false).2 = "selection.npy".toList ∧
    (saveSelection (saveSelection [] false).1 false).2 = "selection.npy".toList ∧
    (saveSelection (saveSelection [] false).1 false).1 = ["selection.npy".toList] ∧
    (saveSelection (saveSelection [] false).1 false).2 ≠ "selection_1.npy".toList := by decide

/-- C6, counterexample: the SurfaceMesh variant of remove is setdiff1d, which
sorts.  The reachable state with internal selection [5, 2] (add 5 then add 2)
is reordered to [2, 5] by removing the absent id 7, so removing absent ids is
not a no-op on the ordered collection there. -/
theorem c6_counterexample :
    ((SurfaceMesh.mk none []).add [5] |>.add [2]).idx = [5, 2] ∧
    (7 : Nat) ∉ ((SurfaceMesh.mk none []).add [5] |>.add [2]).idx ∧
    (((SurfaceMesh.mk none []).add [5] |>.add [2]).remove [7]).idx = [2, 5] ∧
    (((SurfaceMesh.mk none []).add [5] |>.add [2]).remove [7]).idx
      ≠ ((SurfaceMesh.mk none []).add [5] |>.add [2]).idx := by decide

/-- C6, amended: SurfaceSelection.remove removes exactly the present ids and
keeps every other element unchanged in its original order (the result is a
sublist of the prior collection containing exactly the elements not removed),
and removing a list with no present id leaves the collection, including its
order, unchanged.  The SurfaceMesh variant only satisfies this at the level of
sets, since its setdiff1d sorts the result. -/
theorem c6_remove_exact (s : SurfaceSelection) (ids : List Nat) :
    (s.remove ids).idx.Sublist s.idx ∧
    (∀ x, x ∈ (s.remove ids).idx ↔ x ∈ s.idx ∧ x ∉ ids) ∧
    ((∀ x ∈ s.idx, x ∉ ids) → (s.remove ids).idx = s.idx) := by
  refine ⟨List.filter_sublist _, ?_, ?_⟩
  · intro x
    simp [SurfaceSelection.remove, List.mem_filter]
  · intro h
    simp only [SurfaceSelection.remove]
    exact List.filter_eq_self.mpr fun a ha => by simpa using h a ha

/-- C6, witness: the amended statement evaluated at the ordered selection
[5, 2] and the removal list [7]. -/
theorem c6_remove_exact_witness :
    ((SurfaceSelection.mk [] [] none [5, 2]).remove [7]).idx.Sublist
      (SurfaceSelection.mk [] [] none [5, 2]).idx ∧
    (∀ x, x ∈ ((SurfaceSelection.mk [] [] none [5, 2]).remove [7]).idx ↔
      x ∈ (SurfaceSelection.mk [] [] none [5, 2]).idx ∧ x ∉ [7]) ∧
    ((∀ x ∈ (SurfaceSelection.mk [] [] none [5, 2]).idx, x ∉ [7]) →
      ((SurfaceSelection.mk [] [] none [5, 2]).remove [7]).idx
        = (SurfaceSelection.mk [] [] none [5, 2]).idx) :=
  c6_remove_exact (SurfaceSelection.mk [] [] none [5, 2]) [7]

/-- C8: inverting the selection twice within the universe of surface vertices
returns the original selection: the double complement has exactly the original
members for any selection of valid indices, and it is literally the original
list whenever the selection is stored sorted and duplicate-free (setdiff1d
always produces sorted duplicate-free output, so the set-level statement is
the general one). -/
theorem c8_invert_involution (s : SurfaceSelection)
    (hbound : ∀ x ∈ s.idx, x < s.vertices.length) :
    (∀ a, a ∈ s.invert.invert.idx ↔ a ∈ s.idx) ∧
    (s.idx.Sorted (· ≤ ·) → s.idx.Nodup → s.invert.invert.idx = s.idx) := by
  have hmem : ∀ a, a ∈ s.invert.invert.idx ↔ a ∈ s.idx := by
    intro a
    simp only [SurfaceSelection.invert, mem_setdiff1d, List.mem_range]
    constructor
    · rintro ⟨ha, hnot⟩
      by_contra hx
      exact hnot ⟨ha, hx⟩
    · intro hx
      exact ⟨hbound a hx, fun h => h.2 hx⟩
  refine ⟨hmem, fun hsort hnodup => ?_⟩
  have hperm : List.Perm s.invert.invert.idx s.idx :=
    (List.perm_ext_iff_of_nodup (nodup_setdiff1d _ _) hnodup).mpr hmem
  exact List.eq_of_perm_of_sorted hperm (sorted_setdiff1d _ _) hsort

/-! Characterisations of the engine transitions, shared by the history
claims. -/

theorem selected_idx_none (s : SurfaceSelection) (h : s.idx_tetra = none) :
    s.selected_idx = s.idx := by
  simp [SurfaceSelection.selected_idx, h]

theorem update_push (m : MeshSelection) (hlen : m.history.length = m.history_idx + 1) :
    (m.update true).history = m.history ++ [m.mesh.selected_idx] ∧
    (m.update true).history_idx = m.history_idx + 1 ∧
    (m.update true).history.length = m.history_idx + 2 ∧
    (m.update true).mesh = m.mesh ∧
    (m.update true).draw_mode = m.draw_mode ∧
    (m.update true).cursor = m.cursor := by
  have ht : m.history.take (m.history_idx + 1) = m.history := by
    rw [← hlen]; exact List.take_length _
  have h1 : (m.update true).history = m.history ++ [m.mesh.selected_idx] := by
    show m.history.take (m.history_idx + 1) ++ [m.mesh.selected_idx] = _
    rw [ht]
  have h2 : (m.update true).history_idx = m.history_idx + 1 := by
    show (m.history.take (m.history_idx + 1) ++ [m.mesh.selected_idx]).length - 1 = _
    rw [ht]
    simp [hlen]
  refine ⟨h1, h2, ?_, rfl, rfl, rfl⟩
  rw [h1]
  simp [hlen]

theorem update_true_spec (m : MeshSelection) (h : m.history_idx < m.history.length) :
    (m.update true).history = m.history.take (m.history_idx + 1) ++ [m.mesh.selected_idx] ∧
    (m.update true).history_idx = m.history_idx + 1 ∧
    (m.update true).history.length = m.history_idx + 2 := by
  have hlen : (m.history.take (m.history_idx + 1)).length = m.history_idx + 1 := by
    rw [List.length_take]; omega
  have h2 : (m.update true).history_idx = m.history_idx + 1 := by
    show (m.history.take (m.history_idx + 1) ++ [m.mesh.selected_idx]).length - 1 = _
    simp [hlen]
  refine ⟨rfl, h2, ?_⟩
  show (m.history.take (m.history_idx + 1) ++ [m.mesh.selected_idx]).length = _
  simp [hlen]

theorem undo_step_spec (s : MeshSelection) (h : 0 < s.history_idx) :
    s.step .keyUndo =
      { s with history_idx := s.history_idx - 1,
               mesh := s.mesh.set_selected_idx (s.history.getD (s.history_idx - 1) []) } := by
  simp [MeshSelection.step, h, MeshSelection.update]

theorem redo_step_spec (s : MeshSelection) (h : s.history_idx < s.history.length - 1) :
    s.step .keyRedo =
      { s with history_idx := s.history_idx + 1,
               mesh := s.mesh.set_selected_idx (s.history.getD (s.history_idx + 1) []) } := by
  simp [MeshSelection.step, h, MeshSelection.update]

theorem toggle_entry_spec (s : MeshSelection) (hdraw : s.draw_mode = false) :
    s.step .keyToggleDraw = { s with draw_mode := true } := by
  simp [MeshSelection.step, hdraw]

theorem toggle_exit_spec (s : MeshSelection) (hdraw : s.draw_mode = true)
    (hlen : s.history_idx + 1 = s.history.length) :
    (s.step .keyToggleDraw).history = s.history ++ [s.mesh.selected_idx] ∧
    (s.step .keyToggleDraw).history_idx = s.history.length ∧
    (s.step .keyToggleDraw).mesh = s.mesh ∧
    (s.step .keyToggleDraw).draw_mode = false ∧
    (s.step .keyToggleDraw).history.length = s.history.length + 1 := by
  have ht : s.history.take (s.history_idx + 1) = s.history := by
    rw [hlen]; exact List.take_length _
  have hstep : s.step .keyToggleDraw =
      { s with draw_mode := false,
               history := s.history ++ [s.mesh.selected_idx],
               history_idx := (s.history ++ [s.mesh.selected_idx]).length - 1 } := by
    simp [MeshSelection.step, hdraw, ht]
  rw [hstep]
  refine ⟨rfl, ?_, rfl, rfl, ?_⟩ <;> simp

/-- Every event preserves validity of the history cursor. -/
theorem historyInv_step (m : MeshSelection) (e : Event)
    (h : m.history_idx < m.history.length) :
    (m.step e).history_idx < (m.step e).history.length := by
  cases e <;>
    simp only [MeshSelection.step, MeshSelection.update] <;>
    split_ifs <;>
    simp_all [List.length_take] <;>
    omega

/-- C5: in every reachable engine state the history cursor is a valid index
into the history, and recording a snapshot first discards every entry
strictly after the cursor, then appends the current selection, leaving the
cursor on the new final entry. -/
theorem c5_history_cursor_invariant (m : MeshSelection) (hr : Reachable m) :
    m.history_idx < m.history.length ∧
    (m.update true).history = m.history.take (m.history_idx + 1) ++ [m.mesh.selected_idx] ∧
    (m.update true).history_idx = m.history_idx + 1 ∧
    (m.update true).history.getD (m.update true).history_idx [] = m.mesh.selected_idx ∧
    (m.update true).history.length = m.history_idx + 2 := by
  have inv : m.history_idx < m.history.length := by
    induction hr with
    | launch mesh => simp [MeshSelection.launch, MeshSelection.fresh, MeshSelection.update]
    | step m' e _ ih => exact historyInv_step m' e ih
  obtain ⟨h1, h2, h3⟩ := update_true_spec m inv
  have hlen : (m.history.take (m.history_idx + 1)).length = m.history_idx + 1 := by
    rw [List.length_take]; omega
  refine ⟨inv, h1, h2, ?_, h3⟩
  rw [h1, h2]
  have hc := getD_concat_self (m.history.take (m.history_idx + 1)) m.mesh.selected_idx
    ([] : List Nat)
  rw [hlen] at hc
  exact hc

/-- C5, witness: the invariant and the push shape evaluated at the launched
ten-vertex surface engine. -/
theorem c5_history_cursor_invariant_witness :
    surfaceEngine.history_idx < surfaceEngine.history.length ∧
    (surfaceEngine.update true).history =
      surfaceEngine.history.take (surfaceEngine.history_idx + 1)
        ++ [surfaceEngine.mesh.selected_idx] ∧
    (surfaceEngine.update true).history_idx = surfaceEngine.history_idx + 1 ∧
    (surfaceEngine.update true).history.getD (surfaceEngine.update true).history_idx []
      = surfaceEngine.mesh.selected_idx ∧
    (surfaceEngine.update true).history.length = surfaceEngine.history_idx + 2 :=
  c5_history_cursor_invariant surfaceEngine
    (Reachable.launch (SurfaceSelection.initSurface surfPts10 normals10 none))

/-- Hovering in draw mode commits the hovered ids into the selection but
never touches the history or the cursor position. -/
theorem mouseFold_spec (hs : List (List Nat)) : ∀ (s : MeshSelection), s.draw_mode = true →
    (hs.foldl (fun a ids => a.step (.mouseMove true ids)) s).history = s.history ∧
    (hs.foldl (fun a ids => a.step (.mouseMove true ids)) s).history_idx = s.history_idx ∧
    (hs.foldl (fun a ids => a.step (.mouseMove true ids)) s).draw_mode = true ∧
    (hs.foldl (fun a ids => a.step (.mouseMove true ids)) s).mesh.idx_tetra
      = s.mesh.idx_tetra ∧
    (∀ x, x ∈ (hs.foldl (fun a ids => a.step (.mouseMove true ids)) s).mesh.idx ↔
      x ∈ s.mesh.idx ∨ x ∈ hs.flatten) := by
  induction hs with
  | nil =>
    intro s hdraw
    exact ⟨rfl, rfl, hdraw, rfl, by simp⟩
  | cons ids rest ih =>
    intro s hdraw
    by_cases hne : ids = []
    · subst hne
      have hstep : s.step (.mouseMove true []) = { s with cursor := [] } := by
        simp [MeshSelection.step, MeshSelection.update]
      have hfold : (([] : List Nat) :: rest).foldl
            (fun a ids => a.step (.mouseMove true ids)) s
          = rest.foldl (fun a ids => a.step (.mouseMove true ids)) ({ s with cursor := [] }) := by
        simp [List.foldl_cons, hstep]
      obtain ⟨i1, i2, i3, i4, i5⟩ := ih ({ s with cursor := [] }) hdraw
      rw [hfold]
      refine ⟨i1, i2, i3, i4, fun x => ?_⟩
      rw [i5 x]
      simp
    · have hstep : s.step (.mouseMove true ids) =
          { s with cursor := ids, mesh := s.mesh.add ids } := by
        simp [MeshSelection.step, MeshSelection.update, hdraw, hne]
      have hfold : (ids :: rest).foldl (fun a ids => a.step (.mouseMove true ids)) s
          = rest.foldl (fun a ids => a.step (.mouseMove true ids))
              ({ s with cursor := ids, mesh := s.mesh.add ids }) := by
        simp [List.foldl_cons, hstep]
      obtain ⟨i1, i2, i3, i4, i5⟩ :=
        ih ({ s with cursor := ids, mesh := s.mesh.add ids }) hdraw
      rw [hfold]
      refine ⟨i1, i2, i3, by rw [i4]; rfl, fun x => ?_⟩
      rw [i5 x]
      show x ∈ (s.mesh.add ids).idx ∨ x ∈ rest.flatten ↔ _
      simp only [SurfaceSelection.add, mem_dedupFirst, List.mem_append, List.flatten_cons]
      tauto

/-- C2, amended: for an engine over a plain surface mesh, in a state with no
pending redo entries whose current snapshot records the current selection,
a complete brush stroke (enter draw mode, hover over any id lists, exit draw
mode) records no history entry before the exit, records exactly one entry at
the exit, equal to the new selection, whose members are the union of the
prior selection with all hovered ids, leaves the cursor on that entry, and a
single undo afterwards restores the prior selection. -/
theorem c2_draw_mode_batching (m : MeshSelection) (hovers : List (List Nat))
    (hsurf : m.mesh.idx_tetra = none) (hdraw : m.draw_mode = false)
    (hcur : m.history_idx + 1 = m.history.length)
    (hlast : m.history.getD m.history_idx [] = m.mesh.idx) :
    (∀ pre suf, hovers = pre ++ suf →
      (hoverStroke m pre).history = m.history ∧
      (hoverStroke m pre).history_idx = m.history_idx) ∧
    (stroke m hovers).history = m.history ++ [(stroke m hovers).mesh.idx] ∧
    (stroke m hovers).history_idx = m.history.length ∧
    (stroke m hovers).history.length = m.history.length + 1 ∧
    (∀ x, x ∈ (stroke m hovers).mesh.idx ↔ x ∈ m.mesh.idx ∨ x ∈ hovers.flatten) ∧
    ((stroke m hovers).step .keyUndo).mesh.idx = m.mesh.idx := by
  have hentry : m.step .keyToggleDraw = { m with draw_mode := true } :=
    toggle_entry_spec m hdraw
  have hmid : ∀ pre : List (List Nat),
      (hoverStroke m pre).history = m.history ∧
      (hoverStroke m pre).history_idx = m.history_idx ∧
      (hoverStroke m pre).draw_mode = true ∧
      (hoverStroke m pre).mesh.idx_tetra = none ∧
      (∀ x, x ∈ (hoverStroke m pre).mesh.idx ↔ x ∈ m.mesh.idx ∨ x ∈ pre.flatten) := by
    intro pre
    have h := mouseFold_spec pre ({ m with draw_mode := true }) rfl
    unfold hoverStroke
    rw [hentry]
    exact ⟨h.1, h.2.1, h.2.2.1, by rw [h.2.2.2.1]; exact hsurf, h.2.2.2.2⟩
  obtain ⟨m1, m2, m3, m4, m5⟩ := hmid hovers
  obtain ⟨t1, t2, t3, t4, t5⟩ := toggle_exit_spec (hoverStroke m hovers) m3 (by rw [m1, m2]; exact hcur)
  have hsel : (hoverStroke m hovers).mesh.selected_idx = (hoverStroke m hovers).mesh.idx :=
    selected_idx_none _ m4
  have hist_eq : (stroke m hovers).history = m.history ++ [(stroke m hovers).mesh.idx] := by
    show ((hoverStroke m hovers).step .keyToggleDraw).history
        = m.history ++ [((hoverStroke m hovers).step .keyToggleDraw).mesh.idx]
    rw [t1, m1, t3, hsel]
  have idx_eq : (stroke m hovers).history_idx = m.history.length := by
    show ((hoverStroke m hovers).step .keyToggleDraw).history_idx = _
    rw [t2, m1]
  have len_eq : (stroke m hovers).history.length = m.history.length + 1 := by
    rw [hist_eq]; simp
  have mesh_eq : (stroke m hovers).mesh = (hoverStroke m hovers).mesh := t3
  refine ⟨fun pre suf _ => ⟨(hmid pre).1, (hmid pre).2.1⟩, hist_eq, idx_eq, len_eq,
    fun x => by rw [mesh_eq]; exact m5 x, ?_⟩
  have hpos : 0 < (stroke m hovers).history_idx := by rw [idx_eq]; omega
  rw [undo_step_spec _ hpos]
  show ((stroke m hovers).mesh.set_selected_idx
      ((stroke m hovers).history.getD ((stroke m hovers).history_idx - 1) [])).idx = _
  rw [SurfaceSelection.set_selected_idx, hist_eq, idx_eq]
  have hlt : m.history.length - 1 < m.history.length := by omega
  rw [getD_append_left _ _ _ _ hlt]
  have : m.history.length - 1 = m.history_idx := by omega
  rw [this, hlast]

/-- C2, counterexample: on a tetra-mesh engine the pushed entry is the
surface-to-volume image of the new selection, not the union of the prior
selection with the hovered ids, and a single undo does not restore the prior
selection.  Prior selection (volume ids) is [1] after clicking surface id 0;
hovering surface id 2 during the stroke pushes [1, 3], which contains 3 even
though neither the prior selection nor the hovered ids do, and after one undo
the selection reads [2] instead of [1]. -/
theorem c2_counterexample :
    ((tetraEngine.step (.leftClick true [0])).draw_mode = false) ∧
    (tetraEngine.step (.leftClick true [0])).mesh.selected_idx = [1] ∧
    (stroke (tetraEngine.step (.leftClick true [0])) [[2]]).history.getD
        (stroke (tetraEngine.step (.leftClick true [0])) [[2]]).history_idx [] = [1, 3] ∧
    ((3 : Nat) ∉ (tetraEngine.step (.leftClick true [0])).mesh.selected_idx ∧
      (3 : Nat) ∉ [[2]].flatten) ∧
    ((stroke (tetraEngine.step (.leftClick true [0])) [[2]]).step .keyUndo).mesh.selected_idx
      = [2] := by decide

/-- C2, witness: the amended statement evaluated at the launched ten-vertex
surface engine with the hovered id lists [3], [7], [9]. -/
theorem c2_draw_mode_batching_witness :
    (∀ pre suf, [[3], [7], [9]] = pre ++ suf →
      (hoverStroke surfaceEngine pre).history = surfaceEngine.history ∧
      (hoverStroke surfaceEngine pre).history_idx = surfaceEngine.history_idx) ∧
    (stroke surfaceEngine [[3], [7], [9]]).history =
      surfaceEngine.history ++ [(stroke surfaceEngine [[3], [7], [9]]).mesh.idx] ∧
    (stroke surfaceEngine [[3], [7], [9]]).history_idx = surfaceEngine.history.length ∧
    (stroke surfaceEngine [[3], [7], [9]]).history.length
      = surfaceEngine.history.length + 1 ∧
    (∀ x, x ∈ (stroke surfaceEngine [[3], [7], [9]]).mesh.idx ↔
      x ∈ surfaceEngine.mesh.idx ∨ x ∈ [[3], [7], [9]].flatten) ∧
    ((stroke surfaceEngine [[3], [7], [9]]).step .keyUndo).mesh.idx
      = surfaceEngine.mesh.idx :=
  c2_draw_mode_batching surfaceEngine [[3], [7], [9]] rfl rfl (by decide) (by decide)

/-- Recording a snapshot from a state satisfying the operation invariant
preserves it, for any new cursor and any mutated mesh without a tetra map. -/
theorem opsInv_push (m : MeshSelection) (k : Nat) (c' : List Nat) (mesh' : SurfaceSelection)
    (h : opsInv m k) (htet' : mesh'.idx_tetra = none) :
    opsInv (({ m with cursor := c', mesh := mesh' } : MeshSelection).update true) (k + 1) := by
  obtain ⟨hdraw, htet, hlen, hidx, h0, hk⟩ := h
  have ht : m.history.take (m.history_idx + 1) = m.history := by
    rw [hidx, ← hlen]; exact List.take_length _
  have hupd : ({ m with cursor := c', mesh := mesh' } : MeshSelection).update true
      = { m with cursor := c', mesh := mesh',
                 history := m.history ++ [mesh'.selected_idx],
                 history_idx := (m.history ++ [mesh'.selected_idx]).length - 1 } := by
    simp [MeshSelection.update, ht]
  rw [hupd]
  refine ⟨hdraw, htet', by simp [hlen], by simp [hlen], ?_, ?_⟩
  · show (m.history ++ [mesh'.selected_idx]).getD 0 [] = []
    have h01 : (0 : Nat) < m.history.length := by omega
    rw [getD_append_left _ _ _ _ h01]
    exact h0
  · show (m.history ++ [mesh'.selected_idx]).getD (k + 1) [] = mesh'.idx
    rw [← hlen, getD_concat_self]
    exact selected_idx_none _ htet'

/-- Each history-recording operation advances the operation invariant by
one. -/
theorem opsInv_step (m : MeshSelection) (op : HistOp) (k : Nat)
    (h : opsInv m k) (hp : op.pushes = true) :
    opsInv (m.step op.toEvent) (k + 1) := by
  have hdraw := h.1
  have htet := h.2.1
  cases op with
  | clickAdd ids =>
    have hne : ids ≠ [] := by
      cases ids
      · simp [HistOp.pushes] at hp
      · simp
    have hstep : m.step (HistOp.toEvent (.clickAdd ids)) =
        ({ m with cursor := ids, mesh := m.mesh.add ids } : MeshSelection).update true := by
      simp [HistOp.toEvent, MeshSelection.step, hne, hdraw]
    rw [hstep]
    exact opsInv_push m k ids (m.mesh.add ids) h htet
  | clickRemove ids =>
    have hne : ids ≠ [] := by
      cases ids
      · simp [HistOp.pushes] at hp
      · simp
    have hstep : m.step (HistOp.toEvent (.clickRemove ids)) =
        ({ m with cursor := ids, mesh := m.mesh.remove ids } : MeshSelection).update true := by
      simp [HistOp.toEvent, MeshSelection.step, hne]
    rw [hstep]
    exact opsInv_push m k ids (m.mesh.remove ids) h htet
  | clear => exact opsInv_push m k m.cursor m.mesh.clear h htet
  | selectAll => exact opsInv_push m k m.cursor m.mesh.all h htet
  | invert => exact opsInv_push m k m.cursor m.mesh.invert h htet

/-- A launched engine over a plain surface mesh with no selection file
satisfies the operation invariant at zero operations. -/
theorem opsInv_launch (verts norms : List Pt) :
    opsInv (MeshSelection.launch (SurfaceSelection.initSurface verts norms none)) 0 :=
  ⟨rfl, rfl, rfl, rfl, rfl, rfl⟩

/-- Running guarded history-recording operations advances the invariant by
their number. -/
theorem opsInv_runOps (ops : List HistOp) : ∀ (m : MeshSelection) (k : Nat),
    opsInv m k → (∀ op ∈ ops, op.pushes = true) →
    opsInv (runOps m ops) (k + ops.length) := by
  induction ops with
  | nil => intro m k h _; simpa [runOps] using h
  | cons op rest ih =>
    intro m k h hall
    have h1 := opsInv_step m op k h (hall op (List.mem_cons_self op rest))
    have h2 := ih (m.step op.toEvent) (k + 1) h1 (fun o ho => hall o (List.mem_cons_of_mem op ho))
    have harith : k + (op :: rest).length = (k + 1) + rest.length := by
      simp only [List.length_cons]; omega
    rw [harith]
    exact h2

/-- Iterated undo: the history is untouched, the cursor moves back, and once
at least one undo happened the selection is the snapshot at the final
cursor. -/
theorem undoIter_spec (k : Nat) : ∀ (m : MeshSelection), k ≤ m.history_idx →
    (stepIter .keyUndo k m).history = m.history ∧
    (stepIter .keyUndo k m).history_idx = m.history_idx - k ∧
    (stepIter .keyUndo k m).draw_mode = m.draw_mode ∧
    (stepIter .keyUndo k m).mesh.idx_tetra = m.mesh.idx_tetra ∧
    (0 < k → (stepIter .keyUndo k m).mesh.idx = m.history.getD (m.history_idx - k) []) ∧
    (k = 0 → stepIter .keyUndo k m = m) := by
  induction k with
  | zero =>
    intro m _
    exact ⟨rfl, by simp [stepIter], rfl, rfl, fun h => absurd h (Nat.lt_irrefl 0), fun _ => rfl⟩
  | succ k ih =>
    intro m hk
    have hpos : 0 < m.history_idx := by omega
    have hstep := undo_step_spec m hpos
    have hiter : stepIter .keyUndo (k + 1) m = stepIter .keyUndo k (m.step .keyUndo) := rfl
    obtain ⟨i1, i2, i3, i4, i5, i6⟩ := ih (m.step .keyUndo) (by rw [hstep]; dsimp; omega)
    have hH : (m.step .keyUndo).history = m.history := by rw [hstep]
    have hI : (m.step .keyUndo).history_idx = m.history_idx - 1 := by rw [hstep]
    have hT : (m.step .keyUndo).mesh.idx_tetra = m.mesh.idx_tetra := by rw [hstep]; rfl
    have hD : (m.step .keyUndo).draw_mode = m.draw_mode := by rw [hstep]
    have hX : (m.step .keyUndo).mesh.idx = m.history.getD (m.history_idx - 1) [] := by
      rw [hstep]; rfl
    rw [hiter]
    refine ⟨by rw [i1, hH], ?_, by rw [i3, hD], by rw [i4, hT], ?_,
      fun hz => absurd hz (Nat.succ_ne_zero k)⟩
    · rw [i2, hI]; omega
    · intro _
      cases Nat.eq_zero_or_pos k with
      | inl hz =>
        subst hz
        rw [i6 rfl, hX]
      | inr hkpos =>
        rw [i5 hkpos, hH, hI]
        congr 1
        omega

/-- Iterated redo: mirror image of iterated undo. -/
theorem redoIter_spec (k : Nat) : ∀ (m : MeshSelection), m.history_idx + k < m.history.length →
    (stepIter .keyRedo k m).history = m.history ∧
    (stepIter .keyRedo k m).history_idx = m.history_idx + k ∧
    (stepIter .keyRedo k m).draw_mode = m.draw_mode ∧
    (stepIter .keyRedo k m).mesh.idx_tetra = m.mesh.idx_tetra ∧
    (0 < k → (stepIter .keyRedo k m).mesh.idx = m.history.getD (m.history_idx + k) []) ∧
    (k = 0 → stepIter .keyRedo k m = m) := by
  induction k with
  | zero =>
    intro m _
    exact ⟨rfl, by simp [stepIter], rfl, rfl, fun h => absurd h (Nat.lt_irrefl 0), fun _ => rfl⟩
  | succ k ih =>
    intro m hk
    have hguard : m.history_idx < m.history.length - 1 := by omega
    have hstep := redo_step_spec m hguard
    have hiter : stepIter .keyRedo (k + 1) m = stepIter .keyRedo k (m.step .keyRedo) := rfl
    obtain ⟨i1, i2, i3, i4, i5, i6⟩ := ih (m.step .keyRedo) (by rw [hstep]; dsimp; omega)
    have hH : (m.step .keyRedo).history = m.history := by rw [hstep]
    have hI : (m.step .keyRedo).history_idx = m.history_idx + 1 := by rw [hstep]
    have hT : (m.step .keyRedo).mesh.idx_tetra = m.mesh.idx_tetra := by rw [hstep]; rfl
    have hD : (m.step .keyRedo).draw_mode = m.draw_mode := by rw [hstep]
    have hX : (m.step .keyRedo).mesh.idx = m.history.getD (m.history_idx + 1) [] := by
      rw [hstep]; rfl
    rw [hiter]
    refine ⟨by rw [i1, hH], ?_, by rw [i3, hD], by rw [i4, hT], ?_,
      fun hz => absurd hz (Nat.succ_ne_zero k)⟩
    · rw [i2, hI]; omega
    · intro _
      cases Nat.eq_zero_or_pos k with
      | inl hz =>
        subst hz
        rw [i6 rfl, hX]
      | inr hkpos =>
        rw [i5 hkpos, hH, hI]
        congr 1
        omega

/-- C4, amended: on a freshly launched engine over a plain surface mesh with
an empty initial selection, any sequence of guarded history-recording
operations followed by as many undos returns to the empty initial selection,
and as many redos afterwards restore the selection that was current after the
last operation. -/
theorem c4_undo_redo_roundtrip (verts norms : List Pt) (ops : List HistOp)
    (hall : ∀ op ∈ ops, op.pushes = true) :
    (stepIter .keyUndo ops.length
      (runOps (MeshSelection.launch (SurfaceSelection.initSurface verts norms none))
        ops)).mesh.selected_idx = [] ∧
    (stepIter .keyRedo ops.length (stepIter .keyUndo ops.length
      (runOps (MeshSelection.launch (SurfaceSelection.initSurface verts norms none))
        ops))).mesh.selected_idx
      = (runOps (MeshSelection.launch (SurfaceSelection.initSurface verts norms none))
          ops).mesh.selected_idx := by
  set mN := runOps (MeshSelection.launch (SurfaceSelection.initSurface verts norms none)) ops
    with hmN
  have hinv : opsInv mN (ops.length) := by
    have h2 := opsInv_runOps ops
      (MeshSelection.launch (SurfaceSelection.initSurface verts norms none)) 0
      (opsInv_launch verts norms) hall
    simpa using h2
  obtain ⟨hdraw, htet, hlen, hidx, h0, hk⟩ := hinv
  obtain ⟨u1, u2, u3, u4, u5, u6⟩ := undoIter_spec ops.length mN (by omega)
  set mU := stepIter .keyUndo ops.length mN with hmU
  have hUtet : mU.mesh.idx_tetra = none := by rw [u4]; exact htet
  have hUidx : mU.mesh.idx = [] := by
    cases Nat.eq_zero_or_pos ops.length with
    | inl hz =>
      rw [u6 hz]
      have hk0 := hk
      rw [hz] at hk0
      rw [← hk0]
      exact h0
    | inr hpos =>
      rw [u5 hpos, hidx, Nat.sub_self]
      exact h0
  have hU1 : mU.mesh.selected_idx = [] := by
    rw [selected_idx_none _ hUtet]; exact hUidx
  refine ⟨hU1, ?_⟩
  obtain ⟨r1, r2, r3, r4, r5, r6⟩ := redoIter_spec ops.length mU
    (by rw [u1, u2, hidx, hlen]; omega)
  have hRtet : (stepIter .keyRedo ops.length mU).mesh.idx_tetra = none := by
    rw [r4]; exact hUtet
  cases Nat.eq_zero_or_pos ops.length with
  | inl hz =>
    rw [r6 hz, u6 hz]
  | inr hpos =>
    have hidx2 : mU.history_idx + ops.length = ops.length := by
      rw [u2, hidx]; omega
    have hRidx : (stepIter .keyRedo ops.length mU).mesh.idx = mN.mesh.idx := by
      rw [r5 hpos, u1, hidx2]
      exact hk
    rw [selected_idx_none _ hRtet, selected_idx_none _ htet, hRidx]

/-- C4, counterexample: on a freshly launched tetra-mesh engine the redo half
of the round-trip fails.  After one click-add of surface id 0 the engine
reports the selection [1] (volume ids); one undo correctly returns to the
empty selection, but one redo then reports [2], because the history stores
getter values (volume ids) while the setter reinterprets them as surface
ids. -/
theorem c4_counterexample :
    (stepIter .keyUndo 1 (runOps tetraEngine [.clickAdd [0]])).mesh.selected_idx = [] ∧
    (runOps tetraEngine [.clickAdd [0]]).mesh.selected_idx = [1] ∧
    (stepIter .keyRedo 1 (stepIter .keyUndo 1
      (runOps tetraEngine [.clickAdd [0]]))).mesh.selected_idx = [2] ∧
    (stepIter .keyRedo 1 (stepIter .keyUndo 1
      (runOps tetraEngine [.clickAdd [0]]))).mesh.selected_idx
      ≠ (runOps tetraEngine [.clickAdd [0]]).mesh.selected_idx := by decide

/-- C4, witness: the amended round-trip evaluated on the ten-vertex surface
mesh with the five operations click-add, click-remove, clear, select-all,
invert. -/
theorem c4_undo_redo_roundtrip_witness :
    (stepIter .keyUndo
      ([HistOp.clickAdd [1], HistOp.clickRemove [1], HistOp.clear, HistOp.selectAll,
        HistOp.invert] : List HistOp).length
      (runOps (MeshSelection.launch (SurfaceSelection.initSurface surfPts10 normals10 none))
        [HistOp.clickAdd [1], HistOp.clickRemove [1], HistOp.clear, HistOp.selectAll,
          HistOp.invert])).mesh.selected_idx = [] ∧
    (stepIter .keyRedo
      ([HistOp.clickAdd [1], HistOp.clickRemove [1], HistOp.clear, HistOp.selectAll,
        HistOp.invert] : List HistOp).length
      (stepIter .keyUndo
        ([HistOp.clickAdd [1], HistOp.clickRemove [1], HistOp.clear, HistOp.selectAll,
          HistOp.invert] : List HistOp).length
        (runOps (MeshSelection.launch (SurfaceSelection.initSurface surfPts10 normals10 none))
          [HistOp.clickAdd [1], HistOp.clickRemove [1], HistOp.clear, HistOp.selectAll,
            HistOp.invert]))).mesh.selected_idx
      = (runOps (MeshSelection.launch (SurfaceSelection.initSurface surfPts10 normals10 none))
          [HistOp.clickAdd [1], HistOp.clickRemove [1], HistOp.clear, HistOp.selectAll,
            HistOp.invert]).mesh.selected_idx :=
  c4_undo_redo_roundtrip surfPts10 normals10
    [HistOp.clickAdd [1], HistOp.clickRemove [1], HistOp.clear, HistOp.selectAll,
      HistOp.invert] (by decide)

theorem closestFrom_lt (p : Pt) (l : List Pt) : ∀ (i : Nat) (best : Nat × Int),
    best.1 < i → (closestFrom p l i best).1 < i + l.length := by
  induction l with
  | nil => intro i best h; simpa [closestFrom] using h
  | cons q rest ih =>
    intro i best h
    simp only [closestFrom, List.length_cons]
    split
    · have := ih (i + 1) (i, sqdist q p) (by omega)
      omega
    · have := ih (i + 1) best (by omega)
      omega

/-- The nearest-point query returns a valid vertex id on a nonempty mesh. -/
theorem closestPointId_lt (pts : List Pt) (p : Pt) (h : pts ≠ []) :
    closestPointId pts p < pts.length := by
  cases pts with
  | nil => exact absurd rfl h
  | cons q rest =>
    simp only [closestPointId, List.length_cons]
    have := closestFrom_lt p rest 1 (0, sqdist q p) (by omega)
    omega

/-- C7: at radius zero the proximity query returns exactly one id, the
nearest vertex to the pick position (a valid id of the nonempty mesh), and
the subsequent normal filter keeps it, since the reference normal is the
normal of that same nearest vertex and computed normals are nonzero (their
self dot product is positive). -/
theorem c7_radius_zero_single (s : SurfaceSelection) (pos : Pt)
    (hne : s.vertices ≠ [])
    (hnorm : 0 < dotp (s.normals.getD (closestPointId s.vertices pos) Pt.zero)
        (s.normals.getD (closestPointId s.vertices pos) Pt.zero)) :
    s.get_closest_points pos 0 = [closestPointId s.vertices pos] ∧
    closestPointId s.vertices pos < s.vertices.length := by
  refine ⟨?_, closestPointId_lt s.vertices pos hne⟩
  have hnorm' := hnorm
  simp only [List.getD_eq_getElem?_getD] at hnorm'
  simp [SurfaceSelection.get_closest_points, vedoClosestPoint, List.filter_cons, hnorm']

/-- C7, witness: the radius-zero query on a one-vertex mesh with unit normal,
picked from a position away from the vertex. -/
theorem c7_radius_zero_single_witness :
    (SurfaceSelection.mk [Pt.zero] [Pt.mk 0 0 1] none []).get_closest_points (Pt.mk 3 4 5) 0
      = [closestPointId (SurfaceSelection.mk [Pt.zero] [Pt.mk 0 0 1] none []).vertices
          (Pt.mk 3 4 5)] ∧
    closestPointId (SurfaceSelection.mk [Pt.zero] [Pt.mk 0 0 1] none []).vertices (Pt.mk 3 4 5)
      < (SurfaceSelection.mk [Pt.zero] [Pt.mk 0 0 1] none []).vertices.length :=
  c7_radius_zero_single (SurfaceSelection.mk [Pt.zero] [Pt.mk 0 0 1] none []) (Pt.mk 3 4 5)
    (by decide) (by decide)

/-- C9: switching to the registration tab with landmark selections of
different sizes disables the register button, shows the validation warning,
and leaves the marker state untouched (markers are not added); the button is
enabled exactly when the two sizes match. -/
theorem c9_marker_mismatch (r : Registration) (s t : List Nat) :
    ((changeTabToRegistration r s t).register_enabled = true ↔ s.length = t.length) ∧
    ((changeTabToRegistration r s t).warning_shown = true ↔ s.length ≠ t.length) ∧
    (s.length ≠ t.length →
      (changeTabToRegistration r s t).plt.markers_shown = false ∧
      (changeTabToRegistration r s t).plt.source_markers_idx = r.source_markers_idx ∧
      (changeTabToRegistration r s t).plt.target_markers_idx = r.target_markers_idx) := by
  by_cases h : s.length = t.length <;>
    simp [changeTabToRegistration, Registration.add_markers, h]

/-- C9, witness: the refusal evaluated at one source landmark and no target
landmark. -/
theorem c9_marker_mismatch_witness :
    ((changeTabToRegistration (Registration.mk none none false) [0] []).register_enabled = true
      ↔ ([0] : List Nat).length = ([] : List Nat).length) ∧
    ((changeTabToRegistration (Registration.mk none none false) [0] []).warning_shown = true
      ↔ ([0] : List Nat).length ≠ ([] : List Nat).length) ∧
    (([0] : List Nat).length ≠ ([] : List Nat).length →
      (changeTabToRegistration (Registration.mk none none false) [0] []).plt.markers_shown
        = false ∧
      (changeTabToRegistration (Registration.mk none none false) [0] []).plt.source_markers_idx
        = (Registration.mk none none false).source_markers_idx ∧
      (changeTabToRegistration (Registration.mk none none false) [0] []).plt.target_markers_idx
        = (Registration.mk none none false).target_markers_idx) :=
  c9_marker_mismatch (Registration.mk none none false) [0] []

/-- C10: the selected_idx getter allocates a fresh array: its address differs
from the internal one, mutating it in place changes neither the internal
array nor the value of any later getter read, and the returned array holds
the getter value. -/
theorem c10_selected_idx_fresh (h : Heap) (e : EngineRef) (hv : e.idx_addr < h.length)
    (v : List Nat) :
    (selectedIdxAlloc h e).2 ≠ e.idx_addr ∧
    heapRead (heapWrite (selectedIdxAlloc h e).1 (selectedIdxAlloc h e).2 v) e.idx_addr
      = heapRead h e.idx_addr ∧
    selectedContents (heapWrite (selectedIdxAlloc h e).1 (selectedIdxAlloc h e).2 v) e
      = selectedContents h e ∧
    heapRead (selectedIdxAlloc h e).1 (selectedIdxAlloc h e).2 = selectedContents h e := by
  have hne : h.length ≠ e.idx_addr := by omega
  have hr : heapRead (heapWrite (selectedIdxAlloc h e).1 (selectedIdxAlloc h e).2 v) e.idx_addr
      = heapRead h e.idx_addr := by
    show ((h ++ [selectedContents h e]).set h.length v).getD e.idx_addr []
        = h.getD e.idx_addr []
    rw [getD_set_ne _ _ _ _ _ hne]
    exact getD_append_left _ _ _ _ hv
  refine ⟨hne, hr, ?_, ?_⟩
  · cases het : e.idx_tetra with
    | none =>
      simp only [selectedContents, het]
      exact hr
    | some t =>
      simp only [selectedContents, het]
      rw [hr]
  · show (h ++ [selectedContents h e]).getD h.length [] = selectedContents h e
    exact getD_concat_self _ _ _

/-- C10, witness: the aliasing separation evaluated on a one-array heap,
overwriting the returned array with [9]. -/
theorem c10_selected_idx_fresh_witness :
    (selectedIdxAlloc [[1, 2]] (EngineRef.mk none 0)).2 ≠ (EngineRef.mk none 0).idx_addr ∧
    heapRead (heapWrite (selectedIdxAlloc [[1, 2]] (EngineRef.mk none 0)).1
        (selectedIdxAlloc [[1, 2]] (EngineRef.mk none 0)).2 [9]) (EngineRef.mk none 0).idx_addr
      = heapRead [[1, 2]] (EngineRef.mk none 0).idx_addr ∧
    selectedContents (heapWrite (selectedIdxAlloc [[1, 2]] (EngineRef.mk none 0)).1
        (selectedIdxAlloc [[1, 2]] (EngineRef.mk none 0)).2 [9]) (EngineRef.mk none 0)
      = selectedContents [[1, 2]] (EngineRef.mk none 0) ∧
    heapRead (selectedIdxAlloc [[1, 2]] (EngineRef.mk none 0)).1
        (selectedIdxAlloc [[1, 2]] (EngineRef.mk none 0)).2
      = selectedContents [[1, 2]] (EngineRef.mk none 0) :=
  c10_selected_idx_fresh [[1, 2]] (EngineRef.mk none 0) (by decide) [9]

/-- C8, witness: the double inversion evaluated at the sorted selection
[2, 5] over a ten-vertex surface mesh. -/
theorem c8_invert_involution_witness :
    (∀ a, a ∈ (SurfaceSelection.mk surfPts10 normals10 none [2, 5]).invert.invert.idx ↔
      a ∈ (SurfaceSelection.mk surfPts10 normals10 none [2, 5]).idx) ∧
    ((SurfaceSelection.mk surfPts10 normals10 none [2, 5]).idx.Sorted (· ≤ ·) →
      (SurfaceSelection.mk surfPts10 normals10 none [2, 5]).idx.Nodup →
      (SurfaceSelection.mk surfPts10 normals10 none [2, 5]).invert.invert.idx
        = (SurfaceSelection.mk surfPts10 normals10 none [2, 5]).idx) :=
  c8_invert_involution (SurfaceSelection.mk surfPts10 normals10 none [2, 5]) (by decide)

end VedoTk
